import Mathlib

/-!
Shallow embedding of `automatic-releases-with-sha-action` (files.ts, sha.ts,
main.ts) and verification of the frozen claims about it.

External collaborators (the GitHub API client, the `semver` library, the
`globby` glob expander, the filesystem, the `sha.js` digest, and the helper
modules `utils.ts` / `uploadReleaseArtifacts.ts` whose sources are not part of
the two given files) are modelled as explicit parameters: the GitHub client is
a record of fallible operations, and each run of an orchestration function
additionally returns the trace of client calls it performed, in order.
-/

deriving instance DecidableEq for Except

namespace AutoRelease

/-- A thrown error / failed API response; carries only its message, which is
all the source ever inspects (`err.message`, `core.setFailed(error.message)`). -/
structure Err where
  message : String
deriving DecidableEq, Repr

/-- A pull request as used by the changelog step (`{number, url}`). -/
structure Pull where
  number : Nat
  url : String
deriving DecidableEq, Repr

/-- A commit as returned by `compareCommits` (sha plus commit message). -/
structure Commit where
  sha : String
  message : String
deriving DecidableEq, Repr

/-- Result of the third-party `conventional-commits-parser` on one message:
the fields the source reads (`merge` truthiness, `header`, `body`, `footer`). -/
structure ParsedMsg where
  merge : Bool
  header : String
  body : Option String
  footer : Option String
deriving DecidableEq, Repr

/-- A parsed commit enriched with the `extra` fields main.ts attaches. -/
structure ParsedCommitX where
  msg : ParsedMsg
  commitSha : String
  pullRequests : List Pull
  breakingChange : Bool
deriving DecidableEq, Repr

/-- The run outputs exported at the end of `main`. -/
structure Outputs where
  automaticReleasesTag : String
  uploadUrl : String
deriving DecidableEq, Repr

/-- The validated action inputs (`getAndValidateArgs`).  Absent optional string
inputs are the empty string, matching JS falsiness checks in the source. -/
structure Args where
  automaticReleaseTag : String
  isTagStatic : Bool
  draftRelease : Bool
  preRelease : Bool
  releaseTitle : String
  tagAnnot : String
  files : List String
deriving DecidableEq, Repr

/-- The GitHub Actions context fields main.ts reads. -/
structure Ctx where
  ref : String
  sha : String
deriving DecidableEq, Repr

/-- One GitHub API call, recorded in the order the run performs them. -/
inductive Call where
  | listTags
  | getRef (ref : String)
  | compareCommits (base head : String)
  | listPulls (sha : String)
  | createTag (tag message object : String)
  | createRef (ref sha : String)
  | updateRef (ref sha : String) (force : Bool)
  | getReleaseByTag (tag : String)
  | deleteRelease (id : Nat)
  | createRelease (tagName name : String) (draft prerelease : Bool) (body : String)
  | upload (url : String) (paths : List String)
deriving DecidableEq, Repr

/-- The GitHub API client: the outcome of each operation, for a fixed repository
(`owner`/`repo` are constant for a run and therefore omitted).  `createTag`
returns the sha of the new tag object; `getReleaseByTag` returns the release id;
`createRelease` returns the upload url. -/
structure Client where
  createTag : String → String → String → Except Err String
  createRef : String → String → Except Err Unit
  updateRef : String → String → Bool → Except Err Unit
  getReleaseByTag : String → Except Err Nat
  deleteRelease : Nat → Except Err Unit
  createRelease : String → String → Bool → Bool → String → Except Err String
  getRef : String → Except Err Unit
  compareCommits : String → String → Except Err (List Commit)
  listTags : Except Err (List String)
  listPulls : String → Except Err (List Pull)

/-- External/auxiliary collaborators of main.ts that are not GitHub API calls:
`parseGitTag`, `isBreakingChange`, `generateChangelogFromParsedCommits` and
`appendFullChangelogLink` live in utils.ts (not among the given sources),
`commitParse` is the third-party conventional-commits message parse, `glob` is
globby, `fs` is `readFileSync` (errors carry the thrown message),
`sha256hex` is the sha.js digest, `upload` is uploadReleaseArtifacts.ts. -/
structure Env where
  parseGitTag : String → String
  commitParse : String → ParsedMsg
  isBreakingChange : Option String → Option String → Bool
  generateChangelog : List ParsedCommitX → String
  appendFullChangelogLink : String → String → String → String
  glob : String → List String
  fs : String → Except Err (List Nat)
  sha256hex : List Nat → String
  upload : String → List String → Except Err Unit

/-! ## files.ts -/

/-- One step of JS `new Set` construction: insert `x` if unseen. -/
def setIns (acc : List String) (x : String) : List String :=
  if x ∈ acc then acc else acc ++ [x]

/-- Fold `setIns` over a list starting from `acc`: the JS Set built by adding
the elements of the second list in order. -/
def setFold (acc : List String) (l : List String) : List String :=
  l.foldl setIns acc

/-- Model of `[...new Set(l)]`: deduplicate keeping the first occurrence of each
element, preserving order. -/
def firstDedup (l : List String) : List String :=
  setFold [] l

/-- The loop of `getPaths`: for each glob, if it matches nothing record a
diagnostic (modelled as the offending pattern, standing for the
`core.error` message) and contribute no paths; otherwise
`paths = [...new Set([...paths, ...gpaths])]`. -/
def getPathsGo (glob : String → List String) (paths diags : List String) :
    List String → List String × List String
  | [] => (paths, diags)
  | fileGlob :: rest =>
    let gpaths := glob fileGlob
    if gpaths.length = 0 then
      getPathsGo glob paths (diags ++ [fileGlob]) rest
    else
      getPathsGo glob (firstDedup (paths ++ gpaths)) diags rest

/-- Embedding of `getPaths` of files.ts: expand each glob, skipping (with a diagnostic)
patterns with no matches, deduplicating across patterns.  Returns the path
list and the emitted diagnostics; it never fails. -/
def getPaths (glob : String → List String) (files : List String) :
    List String × List String :=
  getPathsGo glob [] [] files

/-! ## sha.ts -/

/-- POSIX `path.basename`: the component after the last separator. -/
def basename (p : String) : String :=
  String.mk ((p.data.reverse.takeWhile (fun ch => ch ≠ '/')).reverse)

/-- The body of the `getChecksums` loop: one `<digest>  <basename>` line per
path; a failing `readFileSync` throws, aborting at the first unreadable
path. -/
def checksumLines (fs : String → Except Err (List Nat))
    (sha256hex : List Nat → String) : List String → Except Err String
  | [] => .ok ""
  | p :: rest =>
    match fs p with
    | .error e => .error e
    | .ok buffer =>
      match checksumLines fs sha256hex rest with
      | .error e => .error e
      | .ok tail => .ok (sha256hex buffer ++ "  " ++ basename p ++ "\n" ++ tail)

/-- Embedding of `getChecksums` of sha.ts, verbatim structure: the guard is
`paths.length < 0` (not `=== 0`), which is never true, so the header and the
fenced block are rendered even for an empty path list. -/
def getChecksums (fs : String → Except Err (List Nat))
    (sha256hex : List Nat → String) (paths : List String) : Except Err String :=
  let markdown := ""
  if paths.length < 0 then .ok markdown
  else
    match checksumLines fs sha256hex paths with
    | .error e => .error e
    | .ok body => .ok (markdown ++ "## Checksums\nsha256\n```\n" ++ body ++ "```")

/-! ## main.ts -/

/-- Embedding of `createReleaseTag` of main.ts: create the annotated tag object (a failure
here propagates), then try to create the ref; if that fails for any reason,
force-update the existing ref instead.  `refInfo.ref` is of the form
`refs/tags/<name>`; `friendlyTagName` drops the 10-character `refs/tags/`
and `existingTag` drops the 5-character `refs/`.  The ref is created and
updated with the sha of the freshly created tag object (`refInfo.sha` is
overwritten with `tagResponse.data.sha`). -/
def createReleaseTag (c : Client) (ref sha message : String) :
    List Call × Except Err Unit :=
  let friendlyTagName := ref.drop 10
  match c.createTag friendlyTagName message sha with
  | .error e => ([Call.createTag friendlyTagName message sha], .error e)
  | .ok tagSha =>
    match c.createRef ref tagSha with
    | .ok _ =>
      ([Call.createTag friendlyTagName message sha, Call.createRef ref tagSha], .ok ())
    | .error _ =>
      let existingTag := ref.drop 5
      ([Call.createTag friendlyTagName message sha, Call.createRef ref tagSha,
        Call.updateRef existingTag tagSha true],
       c.updateRef existingTag tagSha true)

/-- Embedding of `deletePreviousGitHubRelease` of main.ts: look up the release for the tag
and delete it, with the whole body inside one `try`/`catch` whose handler only
logs — so any failure (of the lookup or of the deletion) is swallowed. -/
def deletePreviousGitHubRelease (c : Client) (tag : String) :
    List Call × Except Err Unit :=
  match c.getReleaseByTag tag with
  | .error _ => ([Call.getReleaseByTag tag], .ok ())
  | .ok id =>
    match c.deleteRelease id with
    | .error _ => ([Call.getReleaseByTag tag, Call.deleteRelease id], .ok ())
    | .ok _ => ([Call.getReleaseByTag tag, Call.deleteRelease id], .ok ())

/-- Embedding of `generateNewGitHubRelease` of main.ts: create the release, returning its
upload url; a failure propagates. -/
def generateNewGitHubRelease (c : Client) (tagName name : String)
    (draft prerelease : Bool) (body : String) :
    List Call × Except Err String :=
  ([Call.createRelease tagName name draft prerelease body],
   c.createRelease tagName name draft prerelease body)

/-- The pure core of `searchForPreviousReleaseTag`, applied to the fetched tag
names: map each tag to its parsed semver (the `semver` library is modelled by
`parse` returning the parsed ordering key, with `le` the ordering of the library),
drop the invalid ones, sort descending (`semverRcompare`), and return the
first tag strictly below the candidate, or the empty string. -/
def searchCore (V : Type) (le : V → V → Prop) [inst : DecidableRel le]
    (parse : String → Option V) (cur : V) (tl : List String) : String :=
  letI : DecidableRel (fun (a b : String × V) => le b.2 a.2) :=
    fun a b => inst b.2 a.2
  let tagList :=
    (tl.filterMap (fun t => (parse t).map (fun v => (t, v)))).insertionSort
      (fun a b => le b.2 a.2)
  match tagList.find? (fun t => decide (¬ le cur t.2)) with
  | some t => t.1
  | none => ""

/-- Embedding of `searchForPreviousReleaseTag` of main.ts: reject a non-semver
candidate
before any API call, otherwise list all tags (paginated) and resolve via
`searchCore`. -/
def searchForPreviousReleaseTag (V : Type) (le : V → V → Prop)
    [DecidableRel le] (parse : String → Option V) (c : Client)
    (currentReleaseTag : String) : List Call × Except Err String :=
  match parse currentReleaseTag with
  | none =>
    ([], .error ⟨"Cannot find previous release tag because the tag does not appear to conform to semantic versioning."⟩)
  | some cur =>
    match c.listTags with
    | .error e => ([Call.listTags], .error e)
    | .ok tl => ([Call.listTags], .ok (searchCore V le parse cur tl))

/-- The last successful response held in `resp` inside
`getCommitsSinceRelease`: a `getRef` response has no `data.commits`, a
`compareCommits` response does. -/
inductive Resp where
  | refResp
  | compareResp (commits : List Commit)
deriving DecidableEq, Repr

/-- Model of `resp?.data?.commits` of the source. -/
def Resp.commitsOf : Option Resp → Option (List Commit)
  | some (Resp.compareResp l) => some l
  | _ => none

/-- Embedding of `getCommitsSinceRelease` of main.ts, keeping the reuse of `resp`
found in the source:
resolve the ref of the previous tag (falling back to `HEAD` when it cannot be
found), then compare commits; if the comparison fails, `resp` still holds the
earlier `getRef` response (or nothing), whose `data.commits` is absent, so the
commit list degrades to `[]`.  The function itself never fails. -/
def getCommitsSinceRelease (c : Client) (env : Env) (ref currentSha : String) :
    List Call × List Commit :=
  let step1 : Option Resp × String :=
    match c.getRef ref with
    | .ok _ => (some Resp.refResp, env.parseGitTag ref)
    | .error _ => (none, "HEAD")
  let resp1 := step1.1
  let previousReleaseRef := step1.2
  let step2 : Option Resp :=
    match c.compareCommits previousReleaseRef currentSha with
    | .ok cs => some (Resp.compareResp cs)
    | .error _ => resp1
  let commits :=
    match Resp.commitsOf step2 with
    | some cs => cs
    | none => []
  ([Call.getRef ref, Call.compareCommits previousReleaseRef currentSha], commits)

/-- The loop of `getChangelog`: per commit, fetch the associated pull
requests (a failure propagates), parse the message, skip merge commits, and
otherwise record the parsed commit with its extras. -/
def getChangelogGo (c : Client) (env : Env) (acc : List ParsedCommitX) :
    List Commit → List Call × Except Err (List ParsedCommitX)
  | [] => ([], .ok acc)
  | commit :: rest =>
    match c.listPulls commit.sha with
    | .error e => ([Call.listPulls commit.sha], .error e)
    | .ok pulls =>
      let parsed := env.commitParse commit.message
      if parsed.merge then
        let r := getChangelogGo c env acc rest
        (Call.listPulls commit.sha :: r.1, r.2)
      else
        let pc : ParsedCommitX :=
          ⟨parsed, commit.sha, pulls, env.isBreakingChange parsed.body parsed.footer⟩
        let r := getChangelogGo c env (acc ++ [pc]) rest
        (Call.listPulls commit.sha :: r.1, r.2)

/-- Embedding of `getChangelog` of main.ts: parse and enrich each commit, then render via
`generateChangelogFromParsedCommits` (utils.ts, modelled abstractly). -/
def getChangelog (c : Client) (env : Env) (commits : List Commit) :
    List Call × Except Err String :=
  match getChangelogGo c env [] commits with
  | (tr, .error e) => (tr, .error e)
  | (tr, .ok parsed) => (tr, .ok (env.generateChangelog parsed))

/-- The body of `main` (everything inside its `try`): determine the release
tag, resolve the previous tag (static mode or semver search), fetch the commit
range, render the changelog, resolve artifact paths and checksums, then — only
when an explicit `automatic_release_tag` was supplied — create/update the tag
ref and delete the pre-existing release, and finally create the new release
and upload the artifacts.  Each failure short-circuits with the trace made so
far.  `args.tagAnnot ? args.tagAnnot : ""` of the source is the identity. -/
def mainBody (V : Type) (le : V → V → Prop) [DecidableRel le]
    (parse : String → Option V) (c : Client) (env : Env) (args : Args)
    (ctx : Ctx) : List Call × Except Err Outputs :=
  let releaseTag :=
    if args.automaticReleaseTag ≠ "" then args.automaticReleaseTag
    else env.parseGitTag ctx.ref
  if releaseTag = "" then
    ([], .error ⟨"The parameter automatic_release_tag was not set and this does not appear to be a GitHub tag event."⟩)
  else
    let prev : List Call × Except Err String :=
      if args.isTagStatic then ([], .ok args.automaticReleaseTag)
      else searchForPreviousReleaseTag V le parse c releaseTag
    match prev with
    | (tr1, .error e) => (tr1, .error e)
    | (tr1, .ok previousReleaseTag) =>
      let step2 :=
        getCommitsSinceRelease c env ("tags/" ++ previousReleaseTag) ctx.sha
      let tr2 := step2.1
      let commitsSinceRelease := step2.2
      match getChangelog c env commitsSinceRelease with
      | (tr3, .error e) => (tr1 ++ tr2 ++ tr3, .error e)
      | (tr3, .ok changelog0) =>
        let changelog :=
          env.appendFullChangelogLink changelog0 previousReleaseTag releaseTag
        let artifactPaths := (getPaths env.glob args.files).1
        match getChecksums env.fs env.sha256hex artifactPaths with
        | .error e => (tr1 ++ tr2 ++ tr3, .error e)
        | .ok checksums =>
          let phase5 : List Call × Except Err Unit :=
            if args.automaticReleaseTag ≠ "" then
              match createReleaseTag c ("refs/tags/" ++ args.automaticReleaseTag)
                  ctx.sha args.tagAnnot with
              | (trA, .error e) => (trA, .error e)
              | (trA, .ok _) =>
                let stepB :=
                  deletePreviousGitHubRelease c args.automaticReleaseTag
                (trA ++ stepB.1, .ok ())
            else ([], .ok ())
          match phase5 with
          | (tr4, .error e) => (tr1 ++ tr2 ++ tr3 ++ tr4, .error e)
          | (tr4, .ok _) =>
            let name := if args.releaseTitle ≠ "" then args.releaseTitle else releaseTag
            let body := changelog ++ "\n\n" ++ checksums
            match generateNewGitHubRelease c releaseTag name args.draftRelease
                args.preRelease body with
            | (tr5, .error e) => (tr1 ++ tr2 ++ tr3 ++ tr4 ++ tr5, .error e)
            | (tr5, .ok releaseUploadUrl) =>
              match env.upload releaseUploadUrl artifactPaths with
              | .error e =>
                (tr1 ++ tr2 ++ tr3 ++ tr4 ++ tr5 ++
                   [Call.upload releaseUploadUrl artifactPaths], .error e)
              | .ok _ =>
                (tr1 ++ tr2 ++ tr3 ++ tr4 ++ tr5 ++
                   [Call.upload releaseUploadUrl artifactPaths],
                 .ok ⟨releaseTag, releaseUploadUrl⟩)

/-- Embedding of `main` of main.ts: run the body inside `try`/`catch`; on
failure report it
(`core.setFailed(error.message)`, the first component) and re-raise the same
error. -/
def mainRun (V : Type) (le : V → V → Prop) [DecidableRel le]
    (parse : String → Option V) (c : Client) (env : Env) (args : Args)
    (ctx : Ctx) : Option String × List Call × Except Err Outputs :=
  match mainBody V le parse c env args ctx with
  | (tr, .ok o) => (none, tr, .ok o)
  | (tr, .error e) => (some e.message, tr, .error e)

/-- Bytes a path resolves to under a filesystem oracle (defaulting to `[]`
for unreadable paths; only used to state digests of readable paths). -/
def bytesOf (fs : String → Except Err (List Nat)) (p : String) : List Nat :=
  match fs p with
  | .ok b => b
  | .error _ => []

/-! ## Concrete instances used by witnesses and counterexamples -/

/-- A toy oracle standing for the semver library in concrete runs: three
valid version strings ordered v1.0.0 < v1.0.1 < v1.1.0 via keys in `Nat`;
anything else is invalid. -/
def parseDemo : String → Option Nat := fun s =>
  if s = "v1.1.0" then some 3
  else if s = "v1.0.1" then some 2
  else if s = "v1.0.0" then some 1
  else none

/-- A client whose every operation succeeds. -/
def clientBase : Client where
  createTag := fun _ _ _ => .ok "tagobjsha"
  createRef := fun _ _ => .ok ()
  updateRef := fun _ _ _ => .ok ()
  getReleaseByTag := fun _ => .ok 7
  deleteRelease := fun _ => .ok ()
  createRelease := fun _ _ _ _ _ => .ok "http://upload.example/assets"
  getRef := fun _ => .ok ()
  compareCommits := fun _ _ => .ok []
  listTags := .ok ["v1.0.0", "junk", "v1.0.1"]
  listPulls := fun _ => .ok []

/-- A client for which looking up the release to delete fails with a
transport error (and the previous tag ref is gone). -/
def clientTransportDelete : Client :=
  { clientBase with
    getReleaseByTag := fun _ => .error ⟨"connect ECONNRESET"⟩
    getRef := fun _ => .error ⟨"Not Found"⟩ }

/-- A client whose tag listing fails. -/
def clientListFails : Client :=
  { clientBase with listTags := .error ⟨"boom"⟩ }

/-- A client for which creating the tag ref conflicts. -/
def clientRefConflict : Client :=
  { clientBase with createRef := fun _ _ => .error ⟨"Reference already exists"⟩ }

/-- A client for which both the previous tag ref lookup and the commit
comparison fail. -/
def clientCompareFails : Client :=
  { clientBase with
    getRef := fun _ => .error ⟨"Not Found"⟩
    compareCommits := fun _ _ => .error ⟨"404"⟩ }

/-- A filesystem with two readable files of identical content. -/
def fsDemo : String → Except Err (List Nat) := fun p =>
  if p = "a.txt" then .ok [120]
  else if p = "b.txt" then .ok [120]
  else .error ⟨"ENOENT: no such file or directory"⟩

/-- A stand-in digest: a deterministic function of the byte content. -/
def shaDemo : List Nat → String := fun b =>
  String.mk (b.map (fun _ => 'x'))

/-- Concrete collaborators for whole-run evaluations. -/
def envDemo : Env where
  parseGitTag := fun s => s.drop 10
  commitParse := fun _ => ⟨false, "", none, none⟩
  isBreakingChange := fun _ _ => false
  generateChangelog := fun _ => "changelog"
  appendFullChangelogLink := fun cl _ _ => cl
  glob := fun _ => []
  fs := fsDemo
  sha256hex := shaDemo
  upload := fun _ _ => .ok ()

/-- Inputs of a dynamic-tag run releasing v1.1.0. -/
def argsDemo : Args := ⟨"v1.1.0", false, false, true, "", "note", []⟩

/-- Context of that run. -/
def ctxDemo : Ctx := ⟨"refs/tags/v1.1.0", "commitsha"⟩

/-! ## Helper lemmas -/

theorem drop10_refs_tags (s : String) : ("refs/tags/" ++ s).drop 10 = s := by
  rw [String.drop_eq]
  have h1 : ("refs/tags/" ++ s).data = "refs/tags/".data ++ s.data := rfl
  rw [h1]
  have hlen : ("refs/tags/").data.length = 10 := rfl
  rw [← hlen, List.drop_left]

theorem drop5_refs_tags (s : String) :
    ("refs/tags/" ++ s).drop 5 = "tags/" ++ s := by
  rw [String.drop_eq]
  have h1 : ("refs/tags/" ++ s).data = "refs/tags/".data ++ s.data := rfl
  rw [h1, List.drop_append_of_le_length (by decide)]
  rfl

theorem checksumLines_ok (fs : String → Except Err (List Nat))
    (sha256hex : List Nat → String) :
    ∀ paths : List String, (∀ p ∈ paths, ∃ b, fs p = .ok b) →
      checksumLines fs sha256hex paths =
        .ok ((paths.map
            (fun p => sha256hex (bytesOf fs p) ++ "  " ++ basename p ++ "\n")).foldr
          (· ++ ·) "")
  | [], _ => rfl
  | p :: rest, h => by
    obtain ⟨b, hb⟩ := h p (List.mem_cons_self p rest)
    have ih := checksumLines_ok fs sha256hex rest
      (fun q hq => h q (List.mem_cons_of_mem p hq))
    simp only [checksumLines, hb, ih, List.map_cons, List.foldr_cons]
    have hby : bytesOf fs p = b := by simp [bytesOf, hb]
    rw [hby]

theorem checksumLines_err (fs : String → Except Err (List Nat))
    (sha256hex : List Nat → String) :
    ∀ paths : List String, ∀ p e, p ∈ paths → fs p = .error e →
      ∃ e2, checksumLines fs sha256hex paths = .error e2
  | q :: rest, p, e, hmem, hfs => by
    rcases List.mem_cons.mp hmem with heq | htail
    · subst heq
      exact ⟨e, by simp only [checksumLines, hfs]⟩
    · match hq : fs q with
      | .error e3 => exact ⟨e3, by simp only [checksumLines, hq]⟩
      | .ok b =>
        obtain ⟨e2, h2⟩ := checksumLines_err fs sha256hex rest p e htail hfs
        exact ⟨e2, by simp only [checksumLines, hq, h2]⟩

theorem getChecksums_eq_lines (fs : String → Except Err (List Nat))
    (sha256hex : List Nat → String) (paths : List String) :
    getChecksums fs sha256hex paths =
      match checksumLines fs sha256hex paths with
      | .error e => .error e
      | .ok body => .ok ("## Checksums\nsha256\n```\n" ++ body ++ "```") := by
  simp only [getChecksums, Nat.not_lt_zero, if_false]
  rfl

/-! ## Claim theorems: the checksum section (sha.ts) -/

/-- C2: the claim says that for zero artifact paths no checksum section is
rendered (the empty string is returned).  The guard in the code is
`paths.length < 0`, which is never true, so the empty path list still yields
the `## Checksums` heading and an (empty) fenced code block.  This theorem
evaluates the code at that failing input. -/
theorem claim2_getChecksums_nil_renders_header
    (fs : String → Except Err (List Nat)) (sha256hex : List Nat → String) :
    getChecksums fs sha256hex [] = .ok "## Checksums\nsha256\n```\n```" := rfl

/-- C5: for a non-empty list of readable paths, `getChecksums` renders the
`Checksums`/`sha256` header, a fenced code block with exactly one
`<digest>  <basename>` line per path (in order), where the digest is the
fixed digest function applied to the bytes of the file; identical contents yield
identical digests. -/
theorem claim5_getChecksums_renders_lines
    (fs : String → Except Err (List Nat)) (sha256hex : List Nat → String)
    (paths : List String) (_hne : paths ≠ [])
    (hread : ∀ p ∈ paths, ∃ b, fs p = .ok b) :
    getChecksums fs sha256hex paths =
      .ok ("## Checksums\nsha256\n```\n" ++
        (paths.map
            (fun p => sha256hex (bytesOf fs p) ++ "  " ++ basename p ++ "\n")).foldr
          (· ++ ·) "" ++ "```") ∧
    ∀ p ∈ paths, ∀ q ∈ paths, bytesOf fs p = bytesOf fs q →
      sha256hex (bytesOf fs p) = sha256hex (bytesOf fs q) := by
  refine ⟨?_, fun p _ q _ h => congrArg sha256hex h⟩
  rw [getChecksums_eq_lines, checksumLines_ok fs sha256hex paths hread]

/-- Witness for C5: the spec scenario — files `a.txt` and `b.txt` with the
same one-byte content get identical digests under distinct basenames. -/
theorem claim5_witness :
    (["a.txt", "b.txt"] ≠ ([] : List String) ∧
      (∀ p ∈ ["a.txt", "b.txt"], ∃ b, fsDemo p = .ok b)) ∧
    (getChecksums fsDemo shaDemo ["a.txt", "b.txt"] =
      .ok ("## Checksums\nsha256\n```\n" ++
        ((["a.txt", "b.txt"].map
            (fun p => shaDemo (bytesOf fsDemo p) ++ "  " ++ basename p ++ "\n")).foldr
          (· ++ ·) "" ++ "```")) ∧
      ∀ p ∈ ["a.txt", "b.txt"], ∀ q ∈ ["a.txt", "b.txt"],
        bytesOf fsDemo p = bytesOf fsDemo q →
          shaDemo (bytesOf fsDemo p) = shaDemo (bytesOf fsDemo q)) := by
  have hread : ∀ p ∈ ["a.txt", "b.txt"], ∃ b, fsDemo p = .ok b := by
    intro p hp
    rcases List.mem_cons.mp hp with h | hp
    · exact ⟨[120], by rw [h]; decide⟩
    · rcases List.mem_cons.mp hp with h | hp
      · exact ⟨[120], by rw [h]; decide⟩
      · cases hp
  exact ⟨⟨by decide, hread⟩,
    claim5_getChecksums_renders_lines fsDemo shaDemo ["a.txt", "b.txt"]
      (by decide) hread⟩

/-- C9: if any path in the list is unreadable, `getChecksums` fails with an
error instead of silently omitting the checksum of that artifact. -/
theorem claim9_unreadable_path_fails
    (fs : String → Except Err (List Nat)) (sha256hex : List Nat → String)
    (paths : List String) (p : String) (e : Err)
    (hmem : p ∈ paths) (hfs : fs p = .error e) :
    ∃ e2, getChecksums fs sha256hex paths = .error e2 := by
  obtain ⟨e2, h2⟩ := checksumLines_err fs sha256hex paths p e hmem hfs
  exact ⟨e2, by rw [getChecksums_eq_lines, h2]⟩

/-- Witness for C9: a list containing an unreadable path makes the whole
checksum computation fail. -/
theorem claim9_witness :
    ("missing.bin" ∈ ["a.txt", "missing.bin"] ∧
      fsDemo "missing.bin" = .error ⟨"ENOENT: no such file or directory"⟩) ∧
    ∃ e2, getChecksums fsDemo shaDemo ["a.txt", "missing.bin"] = .error e2 :=
  ⟨⟨by decide, by decide⟩,
    claim9_unreadable_path_fails fsDemo shaDemo ["a.txt", "missing.bin"]
      "missing.bin" ⟨"ENOENT: no such file or directory"⟩ (by decide) (by decide)⟩

/-! ## Claim theorems: tag search rejection (C8) and commit range (C4) -/

/-- C8: `searchForPreviousReleaseTag` fails with the invalid-version error
whenever the candidate tag does not parse as semantic-version text, and it
does so before any tag listing (the call trace is empty). -/
theorem claim8_invalid_candidate_fails (V : Type) (le : V → V → Prop)
    [DecidableRel le] (parse : String → Option V) (c : Client)
    (cand : String) (hcand : parse cand = none) :
    searchForPreviousReleaseTag V le parse c cand =
      ([], .error ⟨"Cannot find previous release tag because the tag does not appear to conform to semantic versioning."⟩) := by
  simp only [searchForPreviousReleaseTag, hcand]

/-- Witness for C8: the candidate `latest` is not semver. -/
theorem claim8_witness :
    parseDemo "latest" = none ∧
    searchForPreviousReleaseTag Nat (· ≤ ·) parseDemo clientBase "latest" =
      ([], .error ⟨"Cannot find previous release tag because the tag does not appear to conform to semantic versioning."⟩) :=
  ⟨by decide,
    claim8_invalid_candidate_fails Nat (· ≤ ·) parseDemo clientBase "latest"
      (by decide)⟩

/-- C4: `getCommitsSinceRelease` never fails: its commit list is exactly the
result of the comparison when it succeeds — against the parsed tag ref
if the ref resolved and against the `HEAD` sentinel if the ref lookup failed —
and the empty list when the comparison itself fails. -/
theorem claim4_getCommits_graceful (c : Client) (env : Env)
    (ref currentSha : String) :
    ((getCommitsSinceRelease c env ref currentSha).2 =
      match c.compareCommits
          (match c.getRef ref with
           | .ok _ => env.parseGitTag ref
           | .error _ => "HEAD") currentSha with
      | .ok l => l
      | .error _ => []) ∧
    (∀ e, c.getRef ref = .error e →
      (getCommitsSinceRelease c env ref currentSha).1 =
        [Call.getRef ref, Call.compareCommits "HEAD" currentSha]) := by
  constructor
  · match h1 : c.getRef ref with
    | .ok _ =>
      match h2 : c.compareCommits (env.parseGitTag ref) currentSha with
      | .ok l => simp [getCommitsSinceRelease, h1, h2, Resp.commitsOf]
      | .error e => simp [getCommitsSinceRelease, h1, h2, Resp.commitsOf]
    | .error e0 =>
      match h2 : c.compareCommits "HEAD" currentSha with
      | .ok l => simp [getCommitsSinceRelease, h1, h2, Resp.commitsOf]
      | .error e => simp [getCommitsSinceRelease, h1, h2, Resp.commitsOf]
  · intro e he
    match h2 : c.compareCommits "HEAD" currentSha with
    | .ok l => simp [getCommitsSinceRelease, he, h2]
    | .error e2 => simp [getCommitsSinceRelease, he, h2]

/-- Witness for C4: with the previous ref gone and the comparison failing,
the run still gets a commit list — the empty one — after comparing against
`HEAD`. -/
theorem claim4_witness :
    clientCompareFails.getRef "tags/v1.0.1" = .error ⟨"Not Found"⟩ ∧
    (getCommitsSinceRelease clientCompareFails envDemo "tags/v1.0.1"
        "commitsha").2 = [] ∧
    (getCommitsSinceRelease clientCompareFails envDemo "tags/v1.0.1"
        "commitsha").1 =
      [Call.getRef "tags/v1.0.1", Call.compareCommits "HEAD" "commitsha"] :=
  ⟨by decide,
    (claim4_getCommits_graceful clientCompareFails envDemo "tags/v1.0.1"
        "commitsha").1.trans (by decide),
    (claim4_getCommits_graceful clientCompareFails envDemo "tags/v1.0.1"
        "commitsha").2 ⟨"Not Found"⟩ (by decide)⟩

/-! ## Set-semantics lemmas for `getPaths` -/

theorem setFold_append (acc l1 l2 : List String) :
    setFold acc (l1 ++ l2) = setFold (setFold acc l1) l2 := by
  simp [setFold, List.foldl_append]

theorem setFold_cons (acc : List String) (y : String) (l : List String) :
    setFold acc (y :: l) = setFold (setIns acc y) l := rfl

theorem getPathsGo_cons_pos (glob : String → List String)
    (paths diags : List String) (g : String) (rest : List String)
    (hg : (glob g).length = 0) :
    getPathsGo glob paths diags (g :: rest) =
      getPathsGo glob paths (diags ++ [g]) rest := by
  simp only [getPathsGo]
  rw [if_pos hg]

theorem getPathsGo_cons_neg (glob : String → List String)
    (paths diags : List String) (g : String) (rest : List String)
    (hg : ¬ (glob g).length = 0) :
    getPathsGo glob paths diags (g :: rest) =
      getPathsGo glob (firstDedup (paths ++ glob g)) diags rest := by
  simp only [getPathsGo]
  rw [if_neg hg]

theorem mem_setIns {acc : List String} {x y : String} :
    x ∈ setIns acc y ↔ x ∈ acc ∨ x = y := by
  by_cases h : y ∈ acc
  · simp only [setIns, if_pos h]
    constructor
    · exact Or.inl
    · rintro (hx | rfl)
      · exact hx
      · exact h
  · simp [setIns, if_neg h]

theorem mem_setFold : ∀ {l acc : List String} {x : String},
    x ∈ setFold acc l ↔ x ∈ acc ∨ x ∈ l
  | [], acc, x => by simp [setFold]
  | y :: l, acc, x => by
    rw [show setFold acc (y :: l) = setFold (setIns acc y) l from rfl,
      mem_setFold, mem_setIns]
    simp [or_assoc]

theorem nodup_setIns {acc : List String} {y : String} (h : acc.Nodup) :
    (setIns acc y).Nodup := by
  by_cases hy : y ∈ acc
  · simpa [setIns, if_pos hy] using h
  · rw [setIns, if_neg hy, List.nodup_append_comm]
    simpa using ⟨hy, h⟩

theorem nodup_setFold : ∀ {l acc : List String}, acc.Nodup →
    (setFold acc l).Nodup
  | [], _, h => h
  | y :: l, acc, h => by
    rw [setFold_cons]
    exact nodup_setFold (nodup_setIns h)

theorem setFold_eq_append : ∀ {l acc : List String}, (acc ++ l).Nodup →
    setFold acc l = acc ++ l
  | [], acc, _ => by simp [setFold]
  | y :: l, acc, h => by
    have hy : y ∉ acc := fun hmem => by
      rcases List.nodup_append.mp h with ⟨_, _, hdisj⟩
      exact hdisj hmem (List.mem_cons_self y l)
    rw [show setFold acc (y :: l) = setFold (setIns acc y) l from rfl,
      setIns, if_neg hy, setFold_eq_append (by simpa using h), List.append_assoc]
    rfl

theorem setFold_sublist : ∀ (l acc : List String),
    ∃ s, setFold acc l = acc ++ s ∧ s.Sublist l
  | [], acc => ⟨[], by simp [setFold]⟩
  | y :: l, acc => by
    by_cases hy : y ∈ acc
    · obtain ⟨s, hs, hsub⟩ := setFold_sublist l (setIns acc y)
      rw [setIns, if_pos hy] at hs
      exact ⟨s, by rw [show setFold acc (y :: l) = setFold (setIns acc y) l from rfl,
        setIns, if_pos hy, hs], hsub.cons y⟩
    · obtain ⟨s, hs, hsub⟩ := setFold_sublist l (setIns acc y)
      rw [setIns, if_neg hy] at hs
      refine ⟨y :: s, ?_, hsub.cons₂ y⟩
      rw [show setFold acc (y :: l) = setFold (setIns acc y) l from rfl,
        setIns, if_neg hy, hs, List.append_assoc]
      rfl

theorem firstDedup_nodup (l : List String) : (firstDedup l).Nodup :=
  nodup_setFold List.nodup_nil

theorem mem_firstDedup {l : List String} {x : String} :
    x ∈ firstDedup l ↔ x ∈ l := by
  rw [firstDedup, mem_setFold]
  simp

theorem firstDedup_sublist (l : List String) : (firstDedup l).Sublist l := by
  obtain ⟨s, hs, hsub⟩ := setFold_sublist l []
  rw [firstDedup, hs]
  simpa using hsub

theorem firstDedup_append_left {a : List String} (b : List String)
    (h : a.Nodup) : firstDedup (a ++ b) = setFold a b := by
  rw [firstDedup, setFold_append]
  congr 1
  exact setFold_eq_append (by simpa using h)

theorem getPathsGo_fst (glob : String → List String) :
    ∀ (files paths diags : List String), paths.Nodup →
      (getPathsGo glob paths diags files).1 =
        setFold paths ((files.map glob).flatten)
  | [], paths, diags, _ => by simp [getPathsGo, setFold]
  | g :: rest, paths, diags, h => by
    by_cases hg : (glob g).length = 0
    · have hnil : glob g = [] := List.length_eq_zero.mp hg
      rw [getPathsGo_cons_pos glob paths diags g rest hg,
        getPathsGo_fst glob rest paths (diags ++ [g]) h]
      simp [hnil]
    · rw [getPathsGo_cons_neg glob paths diags g rest hg,
        getPathsGo_fst glob rest _ diags (firstDedup_nodup _),
        firstDedup_append_left (glob g) h]
      rw [List.map_cons, List.flatten_cons, setFold_append]

theorem getPathsGo_snd (glob : String → List String) :
    ∀ (files paths diags : List String),
      (getPathsGo glob paths diags files).2 =
        diags ++ files.filter (fun g => decide ((glob g).length = 0))
  | [], paths, diags => by simp [getPathsGo]
  | g :: rest, paths, diags => by
    by_cases hg : (glob g).length = 0
    · rw [getPathsGo_cons_pos glob paths diags g rest hg,
        getPathsGo_snd glob rest paths (diags ++ [g]), List.filter_cons]
      simp [hg]
    · rw [getPathsGo_cons_neg glob paths diags g rest hg,
        getPathsGo_snd glob rest _ diags, List.filter_cons]
      simp [hg]

/-! ## Claim theorems: glob expansion (C6, C10) -/

/-- C6: `getPaths` expands each pattern independently; the returned path list
is the deduplicated union of all matches (a path is returned exactly when
some pattern matched it, and no path appears twice), a pattern with zero
matches contributes no paths and yields exactly one diagnostic — one
diagnostic per zero-match pattern, in order — and the function never fails
(it is total, returning the paths and the diagnostics). -/
theorem claim6_getPaths_dedup_union (glob : String → List String)
    (files : List String) :
    ((getPaths glob files).1).Nodup ∧
    (∀ p, p ∈ (getPaths glob files).1 ↔ ∃ g ∈ files, p ∈ glob g) ∧
    (getPaths glob files).2 =
      files.filter (fun g => decide ((glob g).length = 0)) := by
  refine ⟨?_, fun p => ?_, ?_⟩
  · rw [getPaths, getPathsGo_fst glob files [] [] List.nodup_nil]
    exact nodup_setFold List.nodup_nil
  · rw [getPaths, getPathsGo_fst glob files [] [] List.nodup_nil,
      show setFold [] ((files.map glob).flatten) =
        firstDedup ((files.map glob).flatten) from rfl, mem_firstDedup]
    simp only [List.mem_flatten, List.mem_map]
    constructor
    · rintro ⟨l, ⟨g, hg, rfl⟩, hp⟩
      exact ⟨g, hg, hp⟩
    · rintro ⟨g, hg, hp⟩
      exact ⟨glob g, ⟨g, hg, rfl⟩, hp⟩
  · rw [getPaths, getPathsGo_snd glob files [] []]
    rfl

/-- C10: the path list `getPaths` returns preserves first-seen order — it is
exactly the first-occurrence deduplication of the concatenation of the
match lists of the patterns, in input order, and in particular a sublist of that
concatenation. -/
theorem claim10_getPaths_first_seen_order (glob : String → List String)
    (files : List String) :
    (getPaths glob files).1 = firstDedup ((files.map glob).flatten) ∧
    ((getPaths glob files).1).Sublist ((files.map glob).flatten) := by
  have h : (getPaths glob files).1 = firstDedup ((files.map glob).flatten) :=
    getPathsGo_fst glob files [] [] List.nodup_nil
  exact ⟨h, h ▸ firstDedup_sublist _⟩

/-! ## Tag-resolution lemmas (for C1) -/

theorem find?_split {α : Type} (p : α → Bool) :
    ∀ (l : List α) (x : α), l.find? p = some x →
      ∃ l1 l2, l = l1 ++ x :: l2 ∧ (∀ y ∈ l1, p y = false) ∧ p x = true
  | a :: l, x, h => by
    by_cases ha : p a = true
    · rw [List.find?_cons_of_pos l ha] at h
      cases h
      exact ⟨[], l, rfl, by simp, ha⟩
    · rw [List.find?_cons_of_neg l ha] at h
      obtain ⟨l1, l2, hsplit, hprev, hx⟩ := find?_split p l x h
      exact ⟨a :: l1, l2, by rw [hsplit]; rfl,
        by
          intro y hy
          rcases List.mem_cons.mp hy with rfl | hy
          · exact Bool.not_eq_true _ ▸ (by simpa using ha)
          · exact hprev y hy,
        hx⟩

theorem filterMap_parse_filter (V : Type) (parse : String → Option V) :
    ∀ T : List String,
      ((T.filter (fun t => (parse t).isSome)).filterMap
          (fun t => (parse t).map (fun v => (t, v)))) =
        T.filterMap (fun t => (parse t).map (fun v => (t, v)))
  | [] => rfl
  | t :: T => by
    match h : parse t with
    | none =>
      simp [List.filter_cons, List.filterMap_cons, h, filterMap_parse_filter V parse T]
    | some v =>
      simp [List.filter_cons, List.filterMap_cons, h, filterMap_parse_filter V parse T]

theorem mem_parsePairs {V : Type} {parse : String → Option V} {T : List String}
    {t : String} {v : V} :
    (t, v) ∈ T.filterMap (fun s => (parse s).map (fun w => (s, w))) ↔
      t ∈ T ∧ parse t = some v := by
  rw [List.mem_filterMap]
  constructor
  · rintro ⟨s, hs, hmap⟩
    match hp : parse s with
    | none => rw [hp] at hmap; cases hmap
    | some w =>
      rw [hp] at hmap
      cases hmap
      exact ⟨hs, hp⟩
  · rintro ⟨ht, hp⟩
    exact ⟨t, ht, by rw [hp]; rfl⟩

/-- Characterization of the pure tag-resolution core: it returns the empty
string exactly when no valid tag is strictly below the candidate, and
otherwise a valid tag strictly below the candidate whose version is maximal
among all valid tags strictly below the candidate. -/
theorem searchCore_spec (V : Type) (le : V → V → Prop) [inst : DecidableRel le]
    (htrans : ∀ a b c, le a b → le b c → le a c)
    (htot : ∀ a b, le a b ∨ le b a)
    (parse : String → Option V) (cur : V) (T : List String) :
    (searchCore V le parse cur T = "" ∧
      ∀ t ∈ T, ∀ w, parse t = some w → le cur w) ∨
    (searchCore V le parse cur T ∈ T ∧
      ∃ v, parse (searchCore V le parse cur T) = some v ∧ ¬ le cur v ∧
        ∀ t ∈ T, ∀ w, parse t = some w → ¬ le cur w → le w v) := by
  letI dr : DecidableRel (fun (a b : String × V) => le b.2 a.2) :=
    fun a b => inst b.2 a.2
  haveI : IsTrans (String × V) (fun a b => le b.2 a.2) :=
    ⟨fun a b c hab hbc => htrans c.2 b.2 a.2 hbc hab⟩
  haveI : IsTotal (String × V) (fun a b => le b.2 a.2) :=
    ⟨fun a b => htot b.2 a.2⟩
  have hcore : searchCore V le parse cur T =
      (match ((T.filterMap (fun t => (parse t).map (fun v => (t, v)))).insertionSort
          (fun a b => le b.2 a.2)).find? (fun t => decide (¬ le cur t.2)) with
       | some t => t.1
       | none => "") := rfl
  have hmemL : ∀ y : String × V,
      y ∈ (T.filterMap (fun t => (parse t).map (fun v => (t, v)))).insertionSort
          (fun a b => le b.2 a.2) ↔
        y.1 ∈ T ∧ parse y.1 = some y.2 := by
    intro y
    rw [List.mem_insertionSort]
    exact mem_parsePairs
  match hfind : ((T.filterMap (fun t => (parse t).map (fun v => (t, v)))).insertionSort
      (fun a b => le b.2 a.2)).find? (fun t => decide (¬ le cur t.2)) with
  | none =>
    left
    refine ⟨by rw [hcore, hfind], ?_⟩
    intro t ht w hw
    have hmem : (t, w) ∈ (T.filterMap
        (fun t => (parse t).map (fun v => (t, v)))).insertionSort
          (fun a b => le b.2 a.2) := (hmemL (t, w)).mpr ⟨ht, hw⟩
    have := List.find?_eq_none.mp hfind (t, w) hmem
    simpa using this
  | some x =>
    right
    have hx : x.1 ∈ T ∧ parse x.1 = some x.2 := by
      have hmem := List.find?_some hfind
      have : x ∈ (T.filterMap (fun t => (parse t).map (fun v => (t, v)))).insertionSort
          (fun a b => le b.2 a.2) := List.mem_of_find?_eq_some hfind
      exact (hmemL x).mp this
    have hxlt : ¬ le cur x.2 := by
      have := List.find?_some hfind
      simpa using this
    obtain ⟨l1, l2, hsplit, hprev, _⟩ := find?_split _ _ _ hfind
    have hres : searchCore V le parse cur T = x.1 := by rw [hcore, hfind]
    refine ⟨hres ▸ hx.1, x.2, hres ▸ hx.2, hxlt, ?_⟩
    intro t ht w hw hwlt
    have hmem : (t, w) ∈ l1 ++ x :: l2 :=
      hsplit ▸ (hmemL (t, w)).mpr ⟨ht, hw⟩
    rcases List.mem_append.mp hmem with h1 | h2
    · exfalso
      have := hprev (t, w) h1
      rw [decide_eq_false_iff_not] at this
      exact hwlt (not_not.mp this)
    · rcases List.mem_cons.mp h2 with heq | h2
      · cases heq
        rcases htot w w with h | h <;> exact h
      · have hsorted : List.Sorted (fun (a b : String × V) => le b.2 a.2)
            (l1 ++ x :: l2) :=
          hsplit ▸ List.sorted_insertionSort (fun (a b : String × V) => le b.2 a.2) _
        have hpair := (List.pairwise_append.mp hsorted).2.1
        exact (List.pairwise_cons.mp hpair).1 (t, w) h2

/-! ## Claim theorem: semver tag resolution (C1) -/

/-- C1: with a semver-valid candidate, `searchForPreviousReleaseTag` lists
the tags of the repository and returns the tag with the maximum semver key among
those strictly below the candidate (empty string when there is none);
non-semver tags are never returned (the result, when non-empty, parses) and
never influence the result (resolving over the valid tags alone gives the
same answer).  The semver library is abstracted as a parse function and a
total, transitive ordering on parsed keys. -/
theorem claim1_search_returns_max_lower (V : Type) (le : V → V → Prop)
    [DecidableRel le]
    (htrans : ∀ a b c, le a b → le b c → le a c)
    (htot : ∀ a b, le a b ∨ le b a)
    (parse : String → Option V) (c : Client) (cand : String) (cur : V)
    (T : List String) (hcand : parse cand = some cur)
    (hT : c.listTags = .ok T) :
    searchForPreviousReleaseTag V le parse c cand =
      ([Call.listTags], .ok (searchCore V le parse cur T)) ∧
    ((searchCore V le parse cur T = "" ∧
        ∀ t ∈ T, ∀ w, parse t = some w → le cur w) ∨
      (searchCore V le parse cur T ∈ T ∧
        ∃ v, parse (searchCore V le parse cur T) = some v ∧ ¬ le cur v ∧
          ∀ t ∈ T, ∀ w, parse t = some w → ¬ le cur w → le w v)) ∧
    searchCore V le parse cur T =
      searchCore V le parse cur (T.filter (fun t => (parse t).isSome)) := by
  refine ⟨by simp [searchForPreviousReleaseTag, hcand, hT],
    searchCore_spec V le htrans htot parse cur T, ?_⟩
  simp only [searchCore]
  rw [filterMap_parse_filter]

/-- Witness for C1: the spec scenario — tags v1.0.0, v1.0.1 (and an invalid
`junk`), candidate v1.1.0; the resolver answers v1.0.1. -/
theorem claim1_witness :
    (parseDemo "v1.1.0" = some 3 ∧
      clientBase.listTags = .ok ["v1.0.0", "junk", "v1.0.1"]) ∧
    (searchForPreviousReleaseTag Nat (· ≤ ·) parseDemo clientBase "v1.1.0" =
        ([Call.listTags],
          .ok (searchCore Nat (· ≤ ·) parseDemo 3 ["v1.0.0", "junk", "v1.0.1"])) ∧
      searchCore Nat (· ≤ ·) parseDemo 3 ["v1.0.0", "junk", "v1.0.1"] = "v1.0.1") :=
  ⟨⟨by decide, by decide⟩,
    (claim1_search_returns_max_lower Nat (· ≤ ·)
      (fun _ _ _ => Nat.le_trans) (fun a b => Nat.le_total a b)
      parseDemo clientBase "v1.1.0" 3 ["v1.0.0", "junk", "v1.0.1"]
      (by decide) (by decide)).1,
    by decide⟩

/-! ## Claim theorems: error propagation (C3) -/

/-- Counterexample for C3: the claim says a transport/API failure during the
delete-previous-release phase is fatal and marks the run failed.  Here the
release lookup in that phase fails with a transport error
(`connect ECONNRESET`), yet the run reports no failure and completes
successfully — the catch-all of that phase swallows every error, not only
not-found. -/
theorem claim3_counterexample :
    clientTransportDelete.getReleaseByTag "v1.1.0" =
      .error ⟨"connect ECONNRESET"⟩ ∧
    (mainRun Nat (· ≤ ·) parseDemo clientTransportDelete envDemo argsDemo
        ctxDemo).1 = none ∧
    (mainRun Nat (· ≤ ·) parseDemo clientTransportDelete envDemo argsDemo
        ctxDemo).2.2 = .ok ⟨"v1.1.0", "http://upload.example/assets"⟩ := by
  refine ⟨by decide, by decide, by decide⟩

/-- C3 (amended): the delete-previous-release phase treats every error —
not-found and transport/API failures alike — as success (it can never fail
the run), while an error anywhere else that reaches the top level is
reported (`setFailed` with the message of the error) and re-raised unchanged. -/
theorem claim3_delete_swallows_top_rethrows (V : Type) (le : V → V → Prop)
    [DecidableRel le] (parse : String → Option V) (c : Client) (env : Env)
    (args : Args) (ctx : Ctx) :
    (∀ tag, (deletePreviousGitHubRelease c tag).2 = .ok ()) ∧
    (∀ tr e, mainBody V le parse c env args ctx = (tr, .error e) →
      mainRun V le parse c env args ctx = (some e.message, tr, .error e)) := by
  constructor
  · intro tag
    match h1 : c.getReleaseByTag tag with
    | .error e1 => simp [deletePreviousGitHubRelease, h1]
    | .ok id =>
      match h2 : c.deleteRelease id with
      | .error e2 => simp [deletePreviousGitHubRelease, h1, h2]
      | .ok _ => simp [deletePreviousGitHubRelease, h1, h2]
  · intro tr e h
    rw [mainRun, h]

/-- Witness for C3 (amended): the delete phase succeeds under a transport
failure; and a failing tag listing elsewhere is reported and re-raised. -/
theorem claim3_witness :
    (deletePreviousGitHubRelease clientListFails "v1.1.0").2 = .ok () ∧
    (mainBody Nat (· ≤ ·) parseDemo clientListFails envDemo argsDemo ctxDemo =
        ([Call.listTags], .error ⟨"boom"⟩) ∧
      mainRun Nat (· ≤ ·) parseDemo clientListFails envDemo argsDemo ctxDemo =
        (some "boom", [Call.listTags], .error ⟨"boom"⟩)) :=
  ⟨(claim3_delete_swallows_top_rethrows Nat (· ≤ ·) parseDemo clientListFails
      envDemo argsDemo ctxDemo).1 "v1.1.0",
    by decide,
    (claim3_delete_swallows_top_rethrows Nat (· ≤ ·) parseDemo clientListFails
      envDemo argsDemo ctxDemo).2 [Call.listTags] ⟨"boom"⟩ (by decide)⟩

/-! ## Tag-creation lemmas (for C7) -/

/-- The three possible executions of `createReleaseTag`: tag-object creation
fails (no ref call at all); tag object created and ref created (no update);
tag object created, ref creation fails, forced update of the existing ref. -/
theorem createReleaseTag_cases (c2 : Client) (ref sha msg : String) :
    (∃ e, c2.createTag (ref.drop 10) msg sha = .error e ∧
      createReleaseTag c2 ref sha msg =
        ([Call.createTag (ref.drop 10) msg sha], .error e)) ∨
    (∃ s2, c2.createTag (ref.drop 10) msg sha = .ok s2 ∧
      c2.createRef ref s2 = .ok () ∧
      createReleaseTag c2 ref sha msg =
        ([Call.createTag (ref.drop 10) msg sha, Call.createRef ref s2], .ok ())) ∨
    (∃ s2 e, c2.createTag (ref.drop 10) msg sha = .ok s2 ∧
      c2.createRef ref s2 = .error e ∧
      createReleaseTag c2 ref sha msg =
        ([Call.createTag (ref.drop 10) msg sha, Call.createRef ref s2,
          Call.updateRef (ref.drop 5) s2 true],
         c2.updateRef (ref.drop 5) s2 true)) := by
  match h1 : c2.createTag (ref.drop 10) msg sha with
  | .error e => exact Or.inl ⟨e, rfl, by simp [createReleaseTag, h1]⟩
  | .ok s2 =>
    match h2 : c2.createRef ref s2 with
    | .ok u =>
      exact Or.inr (Or.inl ⟨s2, rfl, h2, by simp [createReleaseTag, h1, h2]⟩)
    | .error e =>
      exact Or.inr (Or.inr ⟨s2, e, rfl, h2, by simp [createReleaseTag, h1, h2]⟩)

/-! ## Claim theorems: dynamic-tag phase ordering (C7) -/

/-- C7: in dynamic-tag mode, `createReleaseTag` first creates the tag object
and then attempts ref creation; a forced update of the existing ref happens
exactly when the tag object was created and ref creation failed (the sole
fallback); and in a successful run the delete-previous-release calls come
after the whole tag-creation trace and before the new release creation and
the artifact upload. -/
theorem claim7_tag_then_delete_then_release (V : Type) (le : V → V → Prop)
    [DecidableRel le] (parse : String → Option V) (c : Client) (env : Env)
    (args : Args) (ctx : Ctx) (tr : List Call) (o : Outputs)
    (hTag : args.automaticReleaseTag ≠ "")
    (hRun : mainBody V le parse c env args ctx = (tr, .ok o)) :
    (∀ (c2 : Client) (ref sha msg r s : String) (f : Bool),
      Call.updateRef r s f ∈ (createReleaseTag c2 ref sha msg).1 →
        f = true ∧ r = ref.drop 5) ∧
    (∀ (c2 : Client) (ref sha msg : String),
      (∃ r s f, Call.updateRef r s f ∈ (createReleaseTag c2 ref sha msg).1) ↔
        ∃ s2 e, c2.createTag (ref.drop 10) msg sha = .ok s2 ∧
          c2.createRef ref s2 = .error e) ∧
    (∃ pre name body ps,
      tr = pre ++
        (createReleaseTag c ("refs/tags/" ++ args.automaticReleaseTag) ctx.sha
            args.tagAnnot).1 ++
        (deletePreviousGitHubRelease c args.automaticReleaseTag).1 ++
        [Call.createRelease args.automaticReleaseTag name args.draftRelease
            args.preRelease body,
          Call.upload o.uploadUrl ps]) := by
  refine ⟨?_, ?_, ?_⟩
  · intro c2 ref sha msg r s f hmem
    rcases createReleaseTag_cases c2 ref sha msg with
      ⟨e, _, hc⟩ | ⟨s2, _, _, hc⟩ | ⟨s2, e, _, _, hc⟩ <;> rw [hc] at hmem
    · simp at hmem
    · simp at hmem
    · simp only [List.mem_cons, List.not_mem_nil, or_false] at hmem
      rcases hmem with h | h | h
      · cases h
      · cases h
      · cases h
        exact ⟨rfl, rfl⟩
  · intro c2 ref sha msg
    constructor
    · rintro ⟨r, s, f, hmem⟩
      rcases createReleaseTag_cases c2 ref sha msg with
        ⟨e, _, hc⟩ | ⟨s2, _, _, hc⟩ | ⟨s2, e, h1, h2, hc⟩ <;> rw [hc] at hmem
      · simp at hmem
      · simp at hmem
      · exact ⟨s2, e, h1, h2⟩
    · rintro ⟨s2, e, h1, h2⟩
      refine ⟨ref.drop 5, s2, true, ?_⟩
      rcases createReleaseTag_cases c2 ref sha msg with
        ⟨e3, h3, hc⟩ | ⟨s3, h3, h4, hc⟩ | ⟨s3, e3, h3, h4, hc⟩
      · rw [h3] at h1; cases h1
      · rw [h3] at h1
        cases h1
        rw [h4] at h2; cases h2
      · rw [h3] at h1
        cases h1
        rw [hc]
        simp
  · have hrel : (if args.automaticReleaseTag ≠ "" then args.automaticReleaseTag
        else env.parseGitTag ctx.ref) = args.automaticReleaseTag := if_pos hTag
    simp only [mainBody, hrel, if_neg hTag, if_pos hTag] at hRun
    split at hRun
    · simp at hRun
    · rename_i x1 tr1 prevTag heq1
      split at hRun
      · simp at hRun
      · rename_i x3 tr3 changelog0 heq3
        split at hRun
        · simp at hRun
        · rename_i checksums heq4
          split at hRun
          · simp at hRun
          · rename_i x5 tr4 u4 heq5
            split at hRun
            · simp at hRun
            · rename_i x6 tr5 url heq6
              split at hRun
              · simp at hRun
              · simp only [Prod.mk.injEq, Except.ok.injEq] at hRun
                obtain ⟨htr, ho⟩ := hRun
                rcases hct : createReleaseTag c
                    ("refs/tags/" ++ args.automaticReleaseTag) ctx.sha
                    args.tagAnnot with ⟨trA, rA⟩
                rw [hct] at heq5
                cases rA with
                | error e => simp at heq5
                | ok uA =>
                  simp only [Prod.mk.injEq, Except.ok.injEq] at heq5
                  have htrA : (createReleaseTag c
                      ("refs/tags/" ++ args.automaticReleaseTag) ctx.sha
                      args.tagAnnot).1 = trA := congrArg Prod.fst hct
                  have htr5 : tr5 =
                      [Call.createRelease args.automaticReleaseTag
                        (if args.releaseTitle ≠ "" then args.releaseTitle
                         else args.automaticReleaseTag) args.draftRelease
                        args.preRelease
                        (env.appendFullChangelogLink changelog0 prevTag
                            args.automaticReleaseTag ++ "\n\n" ++ checksums)] :=
                    (congrArg Prod.fst heq6).symm
                  refine ⟨tr1 ++
                      (getCommitsSinceRelease c env ("tags/" ++ prevTag)
                        ctx.sha).1 ++ tr3,
                    (if args.releaseTitle ≠ "" then args.releaseTitle
                     else args.automaticReleaseTag),
                    (env.appendFullChangelogLink changelog0 prevTag
                        args.automaticReleaseTag ++ "\n\n" ++ checksums),
                    (getPaths env.glob args.files).1, ?_⟩
                  rw [← htr, ← ho]
                  rw [← heq5.1, htr5]
                  simp [List.append_assoc]

/-- Witness for C7: a concrete successful dynamic-tag run in which ref
creation conflicts, so the existing ref is force-updated; the ordering
conclusion is obtained from the theorem at this run. -/
theorem claim7_witness :
    (argsDemo.automaticReleaseTag ≠ "" ∧
      mainBody Nat (· ≤ ·) parseDemo clientRefConflict envDemo argsDemo
          ctxDemo =
        ((mainBody Nat (· ≤ ·) parseDemo clientRefConflict envDemo argsDemo
            ctxDemo).1,
          .ok ⟨"v1.1.0", "http://upload.example/assets"⟩)) ∧
    (∃ pre name body ps,
      (mainBody Nat (· ≤ ·) parseDemo clientRefConflict envDemo argsDemo
          ctxDemo).1 = pre ++
        (createReleaseTag clientRefConflict
            ("refs/tags/" ++ argsDemo.automaticReleaseTag) ctxDemo.sha
            argsDemo.tagAnnot).1 ++
        (deletePreviousGitHubRelease clientRefConflict
            argsDemo.automaticReleaseTag).1 ++
        [Call.createRelease argsDemo.automaticReleaseTag name
            argsDemo.draftRelease argsDemo.preRelease body,
          Call.upload (Outputs.mk "v1.1.0" "http://upload.example/assets").uploadUrl
            ps]) :=
  ⟨⟨by decide, by decide⟩,
    (claim7_tag_then_delete_then_release Nat (· ≤ ·) parseDemo
      clientRefConflict envDemo argsDemo ctxDemo
      (mainBody Nat (· ≤ ·) parseDemo clientRefConflict envDemo argsDemo
          ctxDemo).1
      ⟨"v1.1.0", "http://upload.example/assets"⟩ (by decide) (by decide)).2.2⟩

end AutoRelease
